import Mathlib

/-!
Verification of the news-briefing core of the `web-browsing-ai` repository
(`src/App.tsx`): the text normalizer `parseNewsText`, the bullet parser
`parseNewsBullet`, the category/tag extractor `parseCategory` /
`normalizeCategory`, the remote-task poll loop of `runManusTask`, and the
per-story media enrichment `generateAiMedia`.

JavaScript strings are modelled as `List Char` (with `String` wrappers at the
public entry points); the few regular expressions the code uses are small and
deterministic, and are implemented here literally, following the exact
backtracking behaviour of the JavaScript engine on these patterns.
`undefined`/absent optional fields are modelled as `none`. JS truthiness on
strings ("" is falsy) is modelled by explicit emptiness tests.
-/

set_option autoImplicit false

namespace NewsBriefing

/-! ### JavaScript character classes

`isWs` is the JS `\s` class (which coincides with the set trimmed by
`String.prototype.trim`): tab, LF, VT, FF, CR, space, NBSP, and the Unicode
space separators, plus BOM. `isRegexNl` is the set of characters `.` does not
match (and `$`-relevant line terminators): LF, CR, LS, PS. `isWordChar` is the
JS `\w`/`\b` word-character class `[A-Za-z0-9_]`. -/

def isWs (c : Char) : Bool :=
  c = ' ' || c = '\t' || c = '\n' || c = '\r' ||
  c.toNat = 0x0B || c.toNat = 0x0C ||
  c.toNat = 0xA0 || c.toNat = 0x1680 ||
  (0x2000 ≤ c.toNat && c.toNat ≤ 0x200A) ||
  c.toNat = 0x2028 || c.toNat = 0x2029 || c.toNat = 0x202F ||
  c.toNat = 0x205F || c.toNat = 0x3000 || c.toNat = 0xFEFF

def isRegexNl (c : Char) : Bool :=
  c = '\n' || c = '\r' || c.toNat = 0x2028 || c.toNat = 0x2029

def isWordChar (c : Char) : Bool :=
  ('a' ≤ c && c ≤ 'z') || ('A' ≤ c && c ≤ 'Z') || ('0' ≤ c && c ≤ '9') || c = '_'

/-- The separator class `[\s:|-]` used after a category keyword. -/
def isSepClass (c : Char) : Bool :=
  isWs c || c = ':' || c = '|' || c = '-'

/-- The leading-punctuation class `[-–—:]` stripped after removing a markdown
link (`–` is U+2013, `—` is U+2014). -/
def isDashClass (c : Char) : Bool :=
  c = '-' || c.toNat = 0x2013 || c.toNat = 0x2014 || c = ':'

/-! ### String helpers (JS `trim`, `split`, `includes`) -/

def trimLeft (l : List Char) : List Char := l.dropWhile isWs

def trimRight (l : List Char) : List Char := (l.reverse.dropWhile isWs).reverse

/-- JS `String.prototype.trim`. -/
def trimChars (l : List Char) : List Char := trimRight (trimLeft l)

/-- JS `split` on a single-character separator. -/
def splitOnChar (sep : Char) (l : List Char) : List (List Char) :=
  l.foldr
    (fun c acc =>
      if c = sep then [] :: acc
      else match acc with
        | h :: t => (c :: h) :: t
        | [] => [[c]])
    [[]]

/-- Split at the first occurrence of `sep` (leftmost, as JS `split`/`replace`
with a string argument): returns the part before and the part after, or `none`
when `sep` does not occur. -/
def splitFirst (sep : List Char) : List Char → Option (List Char × List Char)
  | [] => none
  | c :: rest =>
    if sep.isPrefixOf (c :: rest) then some ([], (c :: rest).drop sep.length)
    else (splitFirst sep rest).map (fun p => (c :: p.1, p.2))

/-- JS `String.prototype.includes` (for a non-empty pattern). -/
def containsList (pat l : List Char) : Bool := (splitFirst pat l).isSome

/-! ### The tag matcher `/\[(.+?)\]/`

A match starts at a `[`; the lazy group is the shortest non-empty run of
characters each matched by `.` (no line terminators) that is followed by `]`.
The scan is leftmost: the first `[` admitting such a close wins. -/

/-- Scan for the closing `]` of the lazy group, given the characters after the
first group character: stops at the first `]`; fails at a line terminator or
end of input. Returns (rest of group, text after the `]`). -/
def scanTagClose : List Char → Option (List Char × List Char)
  | [] => none
  | c :: rest =>
    if c = ']' then some ([], rest)
    else if isRegexNl c then none
    else (scanTagClose rest).map (fun p => (c :: p.1, p.2))

/-- Try to complete a `\[(.+?)\]` match at a `[`, given the characters after
it. Returns (group, text after the closing bracket). The group needs at least
one character, which may itself be `]`. -/
def tryTagAt : List Char → Option (List Char × List Char)
  | [] => none
  | c0 :: rest =>
    if isRegexNl c0 then none
    else (scanTagClose rest).map (fun p => (c0 :: p.1, p.2))

/-- Leftmost match of `/\[(.+?)\]/`: returns (text before the match, group,
text after the match), or `none`. -/
def findTagMatch : List Char → Option (List Char × List Char × List Char)
  | [] => none
  | c :: rest =>
    if c = '[' then
      match tryTagAt rest with
      | some (g, after) => some ([], g, after)
      | none => (findTagMatch rest).map (fun p => (c :: p.1, p.2.1, p.2.2))
    else (findTagMatch rest).map (fun p => (c :: p.1, p.2.1, p.2.2))

/-! ### The data model (`NewsCategory`, `NewsItem`, briefing) -/

inductive NewsCategory where
  | Local
  | International
  | Interest
  | Social
  | Other
deriving DecidableEq, Repr

inductive MediaType where
  | image
  | video
deriving DecidableEq, Repr

structure NewsItem where
  title : String
  summary : String
  url : Option String
  source : Option String
  category : NewsCategory
  mediaUrl : Option String
  mediaType : Option MediaType
  tags : List String
deriving DecidableEq, Repr

structure Briefing where
  summary : String
  items : List NewsItem
deriving DecidableEq, Repr

structure ParsedCategory where
  category : NewsCategory
  summary : String
  tags : List String
deriving DecidableEq, Repr

/-! ### `parseCategory` / `normalizeCategory` -/

def lowerChars (l : List Char) : List Char := l.map Char.toLower

/-- `normalizeCategory` (App.tsx): case-insensitive `startsWith` on the
lowered raw keyword text. -/
def normalizeCategory (raw : List Char) : NewsCategory :=
  let n := lowerChars raw
  if List.isPrefixOf "local".data n then .Local
  else if List.isPrefixOf "international".data n then .International
  else if List.isPrefixOf "interest".data n then .Interest
  else if List.isPrefixOf "social".data n then .Social
  else .Other

/-- Case-insensitive literal prefix test (the way `/i` matches the keyword
alternatives: the lowered prefix of `s` of the pattern's length equals the
lowered pattern). -/
def ciStartsWith (s pat : List Char) : Bool :=
  decide (pat.length ≤ s.length ∧ lowerChars (s.take pat.length) = lowerChars pat)

/-- One alternative of `^(Local|International|Interest|Social)\b`: a
case-insensitive prefix match of `pat` followed by a word boundary. Returns
(matched original-case slice, rest). -/
def tryKeyword (pat s : List Char) : Option (List Char × List Char) :=
  if ciStartsWith s pat then
    match (s.drop pat.length).head? with
    | some c => if isWordChar c then none else some (s.take pat.length, s.drop pat.length)
    | none => some (s.take pat.length, s.drop pat.length)
  else none

/-- The keyword alternation, tried in the pattern's order. At most one
alternative can pass the case-insensitive prefix test (the keywords are
pairwise prefix-incompatible), so this is exactly the regex backtracking. -/
def matchKeyword (s : List Char) : Option (List Char × List Char) :=
  match tryKeyword "Local".data s with
  | some p => some p
  | none =>
    match tryKeyword "International".data s with
    | some p => some p
    | none =>
      match tryKeyword "Interest".data s with
      | some p => some p
      | none => tryKeyword "Social".data s

/-- Tag extraction of `parseCategory`: the matched `[...]` is removed from the
text (the leftmost regex match is also the first literal occurrence of the
matched substring, so `text.replace(tagMatch[0], "")` removes exactly the
matched span) and the group is split on commas, each tag trimmed, blanks
dropped. Without a match the text is returned unchanged (not trimmed). -/
def extractTags (text : List Char) : List Char × List (List Char) :=
  match findTagMatch text with
  | some (before, g, after) =>
    (trimChars (before ++ after),
     ((splitOnChar ',' g).map trimChars).filter (· ≠ []))
  | none => (text, [])

/-- The category-regex step of `parseCategory` on the bracket-stripped text:
`^(Local|International|Interest|Social)\b[\s:|-]*(.*)$` matches iff a keyword
alternative matches with a word boundary and, after greedily dropping the
separator run, the remaining tail contains no line terminator (`.` cannot
match one and `$` only matches at the end); `match[2]` is that tail. -/
def categoryBranch (cleaned : List Char) (tags : List (List Char)) :
    NewsCategory × List Char × List (List Char) :=
  match matchKeyword cleaned with
  | none => (.Other, cleaned, tags)
  | some (kw, rest) =>
    let tail := rest.dropWhile isSepClass
    if tail.any isRegexNl then (.Other, cleaned, tags)
    else (normalizeCategory kw, trimChars tail, tags)

/-- `parseCategory` (App.tsx) over characters. -/
def parseCategoryChars (text : List Char) :
    NewsCategory × List Char × List (List Char) :=
  if text = [] then (.Other, text, [])
  else categoryBranch (extractTags text).1 (extractTags text).2

/-- `parseCategory` (App.tsx). -/
def parseCategory (text : String) : ParsedCategory :=
  let p := parseCategoryChars text.data
  { category := p.1, summary := String.mk p.2.1, tags := p.2.2.map String.mk }

/-! ### The markdown-link and bare-URL matchers of `parseNewsBullet` -/

/-- Literal match of `https?:\/\/` (case-sensitive, `s?` greedy): strips
`"https://"` or, failing that, `"http://"`. Returns (scheme, rest). -/
def stripHttpScheme (l : List Char) : Option (List Char × List Char) :=
  if List.isPrefixOf "https://".data l then
    some ("https://".data, l.drop 8)
  else if List.isPrefixOf "http://".data l then
    some ("http://".data, l.drop 7)
  else none

/-- Try to complete `/\[([^\]]+)\]\((https?:\/\/[^)]+)\)/` at a `[`, given the
characters after it: the label is the maximal non-empty run of non-`]`
characters, which must be followed by `](`, the literal scheme, a maximal
non-empty run of non-`)` characters and `)`. Returns (label, url, rest). -/
def tryLinkAt (l : List Char) : Option (List Char × List Char × List Char) :=
  let label := l.takeWhile (· ≠ ']')
  if label = [] then none
  else
    match l.dropWhile (· ≠ ']') with
    | ']' :: '(' :: r2 =>
      match stripHttpScheme r2 with
      | some (scheme, r3) =>
        let run := r3.takeWhile (· ≠ ')')
        if run = [] then none
        else
          match r3.dropWhile (· ≠ ')') with
          | ')' :: after => some (label, scheme ++ run, after)
          | _ => none
      | none => none
    | _ => none

/-- Leftmost match of the markdown-link regex: (before, label, url, after). -/
def findMarkdownLink : List Char → Option (List Char × List Char × List Char × List Char)
  | [] => none
  | c :: rest =>
    if c = '[' then
      match tryLinkAt rest with
      | some (label, url, after) => some ([], label, url, after)
      | none => (findMarkdownLink rest).map (fun p => (c :: p.1, p.2.1, p.2.2.1, p.2.2.2))
    else (findMarkdownLink rest).map (fun p => (c :: p.1, p.2.1, p.2.2.1, p.2.2.2))

/-- Try to complete `/https?:\/\/\S+/` at a position: the literal scheme
followed by a maximal non-empty run of non-whitespace characters. -/
def tryUrlAt (l : List Char) : Option (List Char × List Char) :=
  match stripHttpScheme l with
  | some (scheme, r) =>
    let run := r.takeWhile (fun c => !isWs c)
    if run = [] then none
    else some (scheme ++ run, r.dropWhile (fun c => !isWs c))
  | none => none

/-- Leftmost match of the bare-URL regex: (before, url, after). -/
def findUrl : List Char → Option (List Char × List Char × List Char)
  | [] => none
  | c :: rest =>
    match tryUrlAt (c :: rest) with
    | some (url, after) => some ([], url, after)
    | none => (findUrl rest).map (fun p => (c :: p.1, p.2.1, p.2.2))

/-! ### `parseNewsBullet` -/

/-- `line.replace(/^[-*]\s+/, "")`: remove a leading bullet marker and the
greedy whitespace run after it (when the anchored pattern matches). -/
def stripBulletMarker (l : List Char) : List Char :=
  match l with
  | c :: c1 :: rest =>
    if (c = '-' || c = '*') && isWs c1 then (c1 :: rest).dropWhile isWs else l
  | _ => l

/-- `.replace(/^[-–—:]+\s*/, "")`: when the text starts with a `[-–—:]`
character, drop the maximal run of those and then the whitespace run. -/
def stripLeadingDashSep (l : List Char) : List Char :=
  match l.head? with
  | some c => if isDashClass c then (l.dropWhile isDashClass).dropWhile isWs else l
  | none => l

/-- `url.replace(/[),.]+$/, "")`: trim a trailing run of `)`, `,`, `.`. -/
def dropTrailingPunct (l : List Char) : List Char :=
  (l.reverse.dropWhile (fun c => c = ')' || c = ',' || c = '.')).reverse

/-- The bare-URL branch: the text without the URL, split on the first `" - "`;
the first part is the title segment, the rest re-joined (JS
`parts.slice(1).join(" - ")` is exactly the text after the first separator). -/
def urlBranchParts (before after : List Char) : List Char × List Char :=
  let withoutUrl := trimChars (before ++ after)
  match splitFirst " - ".data withoutUrl with
  | some (p, s) => (p, s)
  | none => (withoutUrl, [])

/-- The summary text handed to `parseCategory` in the bare-URL branch: the
trimmed remainder, defaulted to the literal fallback when empty
(`parts.slice(1).join(" - ").trim() || "Details in the linked source."`). -/
def urlBranchCandidate (before after : List Char) : List Char :=
  let cand := trimChars (urlBranchParts before after).2
  if cand = [] then "Details in the linked source.".data else cand

/-- `parseNewsBullet` (App.tsx) over characters. The leftmost regex match of
each matcher is also the first literal occurrence of the matched substring, so
`cleaned.replace(match[0], "")` yields `before ++ after`. -/
def parseNewsBulletChars (line : List Char) : Option NewsItem :=
  let cleaned := trimChars (stripBulletMarker line)
  match findMarkdownLink cleaned with
  | some (before, label, url, after) =>
    let summary0 := trimChars (stripLeadingDashSep (before ++ after))
    let parsed := parseCategoryChars summary0
    some
      { title := String.mk label
        summary :=
          if parsed.2.1 = [] then "Details in the linked source."
          else String.mk parsed.2.1
        url := some (String.mk url)
        source := none
        category := parsed.1
        mediaUrl := none
        mediaType := none
        tags := parsed.2.2.map String.mk }
  | none =>
    match findUrl cleaned with
    | some (before, urlRaw, after) =>
      let url := dropTrailingPunct urlRaw
      let titlePart := (urlBranchParts before after).1
      let title := if titlePart = [] then "Source link".data else titlePart
      let parsed := parseCategoryChars (urlBranchCandidate before after)
      some
        { title := String.mk title
          summary := String.mk parsed.2.1
          url := some (String.mk url)
          source := none
          category := parsed.1
          mediaUrl := none
          mediaType := none
          tags := parsed.2.2.map String.mk }
    | none =>
      if cleaned = [] then none
      else
        let parsed := parseCategoryChars []
        some
          { title := String.mk cleaned
            summary := ""
            url := none
            source := none
            category := parsed.1
            mediaUrl := none
            mediaType := none
            tags := parsed.2.2.map String.mk }

/-- `parseNewsBullet` (App.tsx). -/
def parseNewsBullet (line : String) : Option NewsItem :=
  parseNewsBulletChars line.data

/-! ### `parseNewsText` -/

/-- `/^[-*]\s+/.test(line)`. -/
def isBulletLine (l : List Char) : Bool :=
  match l with
  | c :: c1 :: _ => (c = '-' || c = '*') && isWs c1
  | _ => false

/-- The line loop of `parseNewsText`: bullet lines are parsed into items (a
failed parse is dropped); lines before the first bullet that do not start
with `#` are collected as summary lines; everything else is ignored. Returns
(items, summary lines), each in input order. -/
def collectLoop : Bool → List (List Char) → List NewsItem × List (List Char)
  | _, [] => ([], [])
  | sawBullets, line :: rest =>
    if isBulletLine line then
      let r := collectLoop true rest
      match parseNewsBulletChars line with
      | some item => (item :: r.1, r.2)
      | none => r
    else if !sawBullets && line.head? ≠ some '#' then
      let r := collectLoop sawBullets rest
      (r.1, line :: r.2)
    else collectLoop sawBullets rest

/-- The fallback story synthesized when no bullet parsed but the summary is
non-empty: title is `summary.split(".")[0]?.trim() || "Top story"`. -/
def fallbackStory (summary : List Char) : NewsItem :=
  let t := trimChars (summary.takeWhile (· ≠ '.'))
  { title := if t = [] then "Top story" else String.mk t
    summary := String.mk summary
    url := none
    source := none
    category := .Other
    mediaUrl := none
    mediaType := none
    tags := [] }

/-- The trimmed, non-empty lines of the input
(`text.split("\n").map(trim).filter(Boolean)`). -/
def newsLines (text : String) : List (List Char) :=
  ((splitOnChar '\n' text.data).map trimChars).filter (· ≠ [])

/-- The collected summary: the non-heading lines before the first bullet,
joined with single spaces and trimmed. -/
def newsSummary (text : String) : List Char :=
  trimChars (List.intercalate [' '] (collectLoop false (newsLines text)).2)

/-- `parseNewsText` (App.tsx): split into trimmed non-empty lines, run the
line loop, join the summary lines with single spaces and trim, truncate items
to 18, and synthesize the fallback story when items are empty and the summary
is not. -/
def parseNewsText (text : String) : Briefing :=
  if text = "" then { summary := "", items := [] }
  else
    let trimmedItems := (collectLoop false (newsLines text)).1.take 18
    let finalItems :=
      if trimmedItems = [] ∧ newsSummary text ≠ [] then [fallbackStory (newsSummary text)]
      else trimmedItems
    { summary := String.mk (newsSummary text), items := finalItems }

/-- The successfully parsed bullet lines of the input, in order (used to state
the truncation claims; equals the item list the loop collects). -/
def parsedBullets (text : String) : List NewsItem :=
  ((newsLines text).filter isBulletLine).filterMap parseNewsBulletChars

/-! ### The poll loop of `runManusTask`

`runManusTask` first creates the task (a non-success HTTP response or a
missing id throws immediately); the claims below concern the poll loop after
a successful creation, which is modelled here. The remote service is modelled
as a script of poll responses: each entry carries the extra time `d` the
request/parse took (so the elapsed time at the next loop check grows by
`pollIntervalMs + d`) and either a non-success HTTP response or a parsed task
body. The observer `onProgress` is taken as present; observer invocations and
`appendLog` calls are recorded as events. A script that runs out before the
loop ends is reported as `scriptExhausted` (the real service always answers,
so no claim concerns that outcome). -/

structure TaskData where
  status : String
  error : Option String
  output : List String
deriving DecidableEq, Repr

inductive PollResp where
  | httpErr (code : Nat)
  | ok (data : TaskData)
deriving DecidableEq, Repr

inductive PollEvent where
  | observed (data : TaskData)
  | logPollFailed (code : Nat)
  | logStatus (s : String)
  | logCompleted
deriving DecidableEq, Repr

inductive PollOutcome where
  | completed (data : TaskData)
  | failed (msg : String)
  | timedOut
  | scriptExhausted
deriving DecidableEq, Repr

/-- The `appendLog("Task status: ...")` line: emitted for a truthy status
other than `running`/`pending`. -/
def statusLogFn (data : TaskData) : List PollEvent :=
  if data.status ≠ "" ∧ data.status ≠ "running" ∧ data.status ≠ "pending" then
    [.logStatus data.status]
  else []

/-- The `while (Date.now() - start < maxPollMs)` loop of `runManusTask`:
the elapsed check happens at the loop head; a non-ok poll logs and continues;
an ok poll is surfaced to the observer, a non-`running`/`pending`/empty status
is logged, `completed` returns the data, `failed` throws
`data.error || "Task failed"`, anything else keeps polling. -/
def pollLoop (maxPollMs pollIntervalMs : Nat) :
    List (Nat × PollResp) → Nat → List PollEvent × PollOutcome
  | [], elapsed =>
    if maxPollMs ≤ elapsed then ([], .timedOut) else ([], .scriptExhausted)
  | (d, .httpErr code) :: rest, elapsed =>
    if maxPollMs ≤ elapsed then ([], .timedOut)
    else
      (.logPollFailed code ::
        (pollLoop maxPollMs pollIntervalMs rest (elapsed + pollIntervalMs + d)).1,
       (pollLoop maxPollMs pollIntervalMs rest (elapsed + pollIntervalMs + d)).2)
  | (d, .ok data) :: rest, elapsed =>
    if maxPollMs ≤ elapsed then ([], .timedOut)
    else if data.status = "completed" then
      (.observed data :: (statusLogFn data ++ [.logCompleted]), .completed data)
    else if data.status = "failed" then
      (.observed data :: statusLogFn data, .failed (data.error.getD "Task failed"))
    else
      (.observed data ::
        (statusLogFn data ++
          (pollLoop maxPollMs pollIntervalMs rest (elapsed + pollIntervalMs + d)).1),
       (pollLoop maxPollMs pollIntervalMs rest (elapsed + pollIntervalMs + d)).2)

/-- A poll response on which the loop keeps going: a non-success HTTP response
or a task body whose status is neither `completed` nor `failed`. -/
def nonTerminal (r : PollResp) : Bool :=
  match r with
  | .httpErr _ => true
  | .ok data => data.status ≠ "completed" && data.status ≠ "failed"

/-- Every loop-head check during the script happens before the timeout. -/
def checksWithin (maxPollMs pollIntervalMs : Nat) :
    List (Nat × PollResp) → Nat → Bool
  | [], _ => true
  | (d, _) :: rest, elapsed =>
    decide (elapsed < maxPollMs) &&
      checksWithin maxPollMs pollIntervalMs rest (elapsed + pollIntervalMs + d)

/-- The elapsed time at the loop-head check after consuming the script. -/
def elapsedAfter (pollIntervalMs : Nat) : List (Nat × PollResp) → Nat → Nat
  | [], e => e
  | (d, _) :: rest, e => elapsedAfter pollIntervalMs rest (e + pollIntervalMs + d)

/-- The sequence of observer (`onProgress`) invocations in an event trace. -/
def observedData (evs : List PollEvent) : List TaskData :=
  evs.filterMap fun e =>
    match e with
    | .observed d => some d
    | _ => none

/-- The loop raises the task's failure: some prefix of the script consists of
responses the loop continues on, every check up to and including the decisive
one beats the timeout, and the next response is an ok body with status
`failed`; the message is the task's reported error or the generic fallback. -/
def failsAt (maxPollMs pollIntervalMs elapsed : Nat)
    (script : List (Nat × PollResp)) (msg : String) : Prop :=
  ∃ p d data rest, script = p ++ (d, PollResp.ok data) :: rest ∧
    (∀ x ∈ p, nonTerminal x.2 = true) ∧
    checksWithin maxPollMs pollIntervalMs p elapsed = true ∧
    elapsedAfter pollIntervalMs p elapsed < maxPollMs ∧
    data.status = "failed" ∧ msg = data.error.getD "Task failed"

/-- The loop times out: after consuming some prefix of responses the loop
continues on (each within time), the elapsed time at the next loop-head check
reaches `maxPollMs` before any terminal response. -/
def timesOutAt (maxPollMs pollIntervalMs elapsed : Nat)
    (script : List (Nat × PollResp)) : Prop :=
  ∃ p rest, script = p ++ rest ∧
    (∀ x ∈ p, nonTerminal x.2 = true) ∧
    checksWithin maxPollMs pollIntervalMs p elapsed = true ∧
    maxPollMs ≤ elapsedAfter pollIntervalMs p elapsed

/-! ### `generateAiMedia`

`requestAiImage` resolves to `{error: data.error || "AI image request failed"}`
on a non-ok response and to `{url: data.url}` otherwise; the fetch itself can
also reject, which `generateAiMedia` catches per item. An `ImgOutcome` models
the result of one request; in `res`, the empty string stands for an
absent/falsy field (the code only tests `result.error` and `result.url` for
truthiness). The collaborator is a function from the item index to the
outcome of the request for that item; after the credential-missing signal the
loop stops issuing requests. Log lines are recorded as `MediaLog` events. -/

inductive ImgOutcome where
  | res (url : String) (error : String)
  | thrown (msg : String)
deriving DecidableEq, Repr

inductive MediaLog where
  | genStart
  | halt
  | failItem (title msg : String)
deriving DecidableEq, Repr

/-- `result.error.includes("Missing OPENAI_API_KEY")` on a truthy error. -/
def isCredentialError (r : ImgOutcome) : Bool :=
  match r with
  | .thrown _ => false
  | .res _ err => err ≠ "" && containsList "Missing OPENAI_API_KEY".data err.data

/-- The per-item effect of one collaborator outcome, absent the credential
halt: an error or a thrown request leaves the item unchanged; a truthy url
is adopted with `mediaType: "image"`. -/
def applyImgResult (item : NewsItem) (r : ImgOutcome) : NewsItem :=
  match r with
  | .thrown _ => item
  | .res url err =>
    if err ≠ "" then item
    else if url = "" then item
    else { item with mediaUrl := some url, mediaType := some .image }

/-- One iteration of the `for` loop of `generateAiMedia` on `item`, given the
collaborator's outcome `r` for it, the result `rec` of the loop over the
remaining items, and those remaining items `rest`: a credential-missing error
logs the halting line and leaves this and every later item untouched (the
loop body is not entered again, so `rec` is discarded); any other error (or a
thrown request) logs a per-item failure and continues; a truthy url enriches
the item. -/
def genLoopCons (r : ImgOutcome) (item : NewsItem)
    (rec : List MediaLog × List NewsItem) (rest : List NewsItem) :
    List MediaLog × List NewsItem :=
  match r with
  | .thrown msg => (.failItem item.title msg :: rec.1, item :: rec.2)
  | .res url err =>
    if err ≠ "" then
      if containsList "Missing OPENAI_API_KEY".data err.data then
        ([.halt], item :: rest)
      else (.failItem item.title err :: rec.1, item :: rec.2)
    else if url = "" then (rec.1, item :: rec.2)
    else (rec.1, { item with mediaUrl := some url, mediaType := some .image } :: rec.2)

/-- The `for` loop of `generateAiMedia` over the copied array, from item
index `i`. -/
def genLoop (resps : Nat → ImgOutcome) : Nat → List NewsItem → List MediaLog × List NewsItem
  | _, [] => ([], [])
  | i, item :: rest =>
    genLoopCons (resps i) item (genLoop resps (i + 1) rest) rest

/-- `generateAiMedia` (App.tsx): an empty list returns immediately (without
the start log); otherwise the loop runs over a copy of the list. -/
def generateAiMedia (items : List NewsItem) (resps : Nat → ImgOutcome) :
    List MediaLog × List NewsItem :=
  if items = [] then ([], items)
  else
    let r := genLoop resps 0 items
    (.genStart :: r.1, r.2)

/-- A default item for positional (`getD`) statements. -/
def defaultNewsItem : NewsItem :=
  { title := "", summary := "", url := none, source := none,
    category := .Other, mediaUrl := none, mediaType := none, tags := [] }

/-- Per-item frame relation for `generateAiMedia`: every field except the
media fields is unchanged, and the media fields are either both unchanged or
were adopted together (`mediaType = "image"` with a present url). -/
def frameRel (a b : NewsItem) : Prop :=
  b.title = a.title ∧ b.summary = a.summary ∧ b.url = a.url ∧
  b.source = a.source ∧ b.category = a.category ∧ b.tags = a.tags ∧
  ((b.mediaUrl = a.mediaUrl ∧ b.mediaType = a.mediaType) ∨
    (b.mediaUrl.isSome = true ∧ b.mediaType = some MediaType.image))

/-- The number of halting log lines in a trace. -/
def countHalt (logs : List MediaLog) : Nat := logs.count .halt

/-! ## Helper lemmas -/

/-- The items collected by the line loop are exactly the successfully parsed
bullet lines, in order, independent of the `sawBullets` flag. -/
theorem collectLoop_fst (b : Bool) (lines : List (List Char)) :
    (collectLoop b lines).1 =
      (lines.filter isBulletLine).filterMap parseNewsBulletChars := by
  induction lines generalizing b with
  | nil => rfl
  | cons line rest ih =>
    by_cases hb : isBulletLine line
    · rw [List.filter_cons_of_pos hb]
      cases hp : parseNewsBulletChars line <;>
        simp [collectLoop, hb, hp, List.filterMap_cons, ih]
    · rw [List.filter_cons_of_neg hb]
      by_cases hs : (b = false ∧ ¬line.head? = some '#') <;>
        simp [collectLoop, hb, hs, ih]

/-! ## C1 — media extraction in `parseNewsBullet` -/

/-- C1 counterexample: a bullet whose only content is a markdown image token
with a `.png` URL. `parseNewsBullet` does not bind `mediaUrl`/`mediaType` at
all; the token is consumed by the markdown-link branch (title is the alt
text) and the leading `!` of the token survives into the summary. -/
theorem parseNewsBullet_image_token_cex :
    (parseNewsBullet "- ![pic](https://a.com/x.png)").map
        (fun i => (i.mediaUrl, i.mediaType, i.title, i.summary)) =
      some (none, none, "pic", "!") := by decide

/-- C1 amended: `parseNewsBullet` performs no media extraction — every item
it returns has `mediaUrl` and `mediaType` unset, whatever the line contains. -/
theorem parseNewsBullet_no_media (line : String) (item : NewsItem)
    (h : parseNewsBullet line = some item) :
    item.mediaUrl = none ∧ item.mediaType = none := by
  simp only [parseNewsBullet, parseNewsBulletChars] at h
  split at h
  · simp only [Option.some.injEq] at h
    subst h
    exact ⟨rfl, rfl⟩
  · split at h
    · simp only [Option.some.injEq] at h
      subst h
      exact ⟨rfl, rfl⟩
    · split at h
      · exact absurd h (by simp)
      · simp only [Option.some.injEq] at h
        subst h
        exact ⟨rfl, rfl⟩

/-- C1 witness for the amended theorem, at the line `"- hello"`. -/
theorem parseNewsBullet_no_media_witness :
    ({ title := "hello", summary := "", url := none, source := none,
       category := .Other, mediaUrl := none, mediaType := none,
       tags := [] } : NewsItem).mediaUrl = none ∧
    ({ title := "hello", summary := "", url := none, source := none,
       category := .Other, mediaUrl := none, mediaType := none,
       tags := [] } : NewsItem).mediaType = none :=
  parseNewsBullet_no_media "- hello" _ (by decide)

/-! ## C2 — the 18-item cap of `parseNewsText` -/

/-- C2 counterexample: an input with no bullet lines but a non-empty summary.
The parsed-bullet list is empty, yet `items` is not — the fallback story is
synthesized — so `items` is not "exactly the first 18 successfully parsed
bullet lines". -/
theorem parseNewsText_cap_cex :
    parsedBullets "hello" = [] ∧ (parseNewsText "hello").items ≠ [] := by decide

/-- C2 amended: `items` never exceeds 18 entries, and whenever at least one
bullet line parses (or the collected summary is empty) `items` is exactly the
first 18 parsed bullet lines in order; the only exception is the fallback
synthesis when no bullet parses and the summary is non-empty. -/
theorem parseNewsText_cap18 (text : String) :
    (parseNewsText text).items.length ≤ 18 ∧
    ((parsedBullets text ≠ [] ∨ (parseNewsText text).summary = "") →
      (parseNewsText text).items = (parsedBullets text).take 18) := by
  by_cases h0 : text = ""
  · subst h0
    refine ⟨by decide, fun _ => by decide⟩
  · have hpb : parsedBullets text = (collectLoop false (newsLines text)).1 :=
      (collectLoop_fst false (newsLines text)).symm
    simp only [parseNewsText, h0, if_false, hpb]
    set items := (collectLoop false (newsLines text)).1
    by_cases hc : items.take 18 = [] ∧ newsSummary text ≠ []
    · refine ⟨by simp [hc], fun h => ?_⟩
      rcases h with h | h
      · exact absurd (List.take_eq_nil_iff.mp hc.1) (by simpa [hpb] using h)
      · exact absurd (congrArg String.data h) (by simpa using hc.2)
    · refine ⟨?_, fun _ => ?_⟩
      · simp only [hc, if_false]
        exact List.length_take_le 18 items
      · simp only [hc, if_false]

/-- C2 witness for the amended theorem: 25 parseable bullets yield exactly the
first 18, in order. -/
theorem parseNewsText_cap18_witness :
    (parseNewsText "Intro line.\n- b1\n- b2\n- b3\n- b4\n- b5\n- b6\n- b7\n- b8\n- b9\n- b10\n- b11\n- b12\n- b13\n- b14\n- b15\n- b16\n- b17\n- b18\n- b19\n- b20\n- b21\n- b22\n- b23\n- b24\n- b25").items.length ≤ 18 ∧
    (parseNewsText "Intro line.\n- b1\n- b2\n- b3\n- b4\n- b5\n- b6\n- b7\n- b8\n- b9\n- b10\n- b11\n- b12\n- b13\n- b14\n- b15\n- b16\n- b17\n- b18\n- b19\n- b20\n- b21\n- b22\n- b23\n- b24\n- b25").items =
      (parsedBullets "Intro line.\n- b1\n- b2\n- b3\n- b4\n- b5\n- b6\n- b7\n- b8\n- b9\n- b10\n- b11\n- b12\n- b13\n- b14\n- b15\n- b16\n- b17\n- b18\n- b19\n- b20\n- b21\n- b22\n- b23\n- b24\n- b25").take 18 := by
  have h := parseNewsText_cap18 "Intro line.\n- b1\n- b2\n- b3\n- b4\n- b5\n- b6\n- b7\n- b8\n- b9\n- b10\n- b11\n- b12\n- b13\n- b14\n- b15\n- b16\n- b17\n- b18\n- b19\n- b20\n- b21\n- b22\n- b23\n- b24\n- b25"
  exact ⟨h.1, h.2 (Or.inl (by decide))⟩

/-! ## C3 — fallback synthesis in `parseNewsText` -/

/-- C3: when no bullet line parses but the collected summary is non-empty,
`items` is exactly one synthesized story: its title is the summary up to the
first period, trimmed, or `"Top story"` when that is empty; its category is
`Other` and its tags are empty. -/
theorem parseNewsText_fallback (text : String)
    (h1 : parsedBullets text = [])
    (h2 : (parseNewsText text).summary ≠ "") :
    (parseNewsText text).items =
      [fallbackStory (parseNewsText text).summary.data] ∧
    (fallbackStory (parseNewsText text).summary.data).category = .Other ∧
    (fallbackStory (parseNewsText text).summary.data).tags = [] ∧
    (fallbackStory (parseNewsText text).summary.data).title =
      (if trimChars ((parseNewsText text).summary.data.takeWhile (· ≠ '.')) = []
       then "Top story"
       else String.mk (trimChars ((parseNewsText text).summary.data.takeWhile (· ≠ '.')))) := by
  refine ⟨?_, rfl, rfl, rfl⟩
  by_cases h0 : text = ""
  · subst h0
    exact absurd rfl h2
  · have hcl : (collectLoop false (newsLines text)).1 = [] := by
      rw [collectLoop_fst false (newsLines text)]
      exact h1
    have hsum : newsSummary text ≠ [] := by
      intro hnil
      apply h2
      simp [parseNewsText, h0, hnil]
    have hitems : (parseNewsText text).items = [fallbackStory (newsSummary text)] := by
      simp [parseNewsText, h0, hcl, hsum]
    have hsummary : (parseNewsText text).summary.data = newsSummary text := by
      simp [parseNewsText, h0]
    rw [hitems, hsummary]

/-- C3 witness at the input `"Hello world. More."`. -/
theorem parseNewsText_fallback_witness :
    (parseNewsText "Hello world. More.").items =
      [fallbackStory (parseNewsText "Hello world. More.").summary.data] ∧
    (fallbackStory (parseNewsText "Hello world. More.").summary.data).category = .Other ∧
    (fallbackStory (parseNewsText "Hello world. More.").summary.data).tags = [] ∧
    (fallbackStory (parseNewsText "Hello world. More.").summary.data).title =
      (if trimChars ((parseNewsText "Hello world. More.").summary.data.takeWhile (· ≠ '.')) = []
       then "Top story"
       else String.mk (trimChars ((parseNewsText "Hello world. More.").summary.data.takeWhile (· ≠ '.')))) :=
  parseNewsText_fallback "Hello world. More." (by decide) (by decide)

/-! ## C7 — the default summary in the bare-URL branch -/

/-- C7 counterexample: a bullet with a bare URL whose summary candidate is
exactly a category keyword. The code applies the `"Details in the linked
source."` default *before* Category Extraction, so the keyword is stripped
afterwards and the returned summary is the empty string — contradicting both
the claimed order and the claimed non-emptiness. -/
theorem parseNewsBullet_url_summary_cex :
    (parseNewsBullet "- Title - Local https://a.com").map (fun i => i.summary) =
      some "" ∧
    findMarkdownLink (trimChars (stripBulletMarker "- Title - Local https://a.com".data)) =
      none ∧
    (findUrl (trimChars (stripBulletMarker "- Title - Local https://a.com".data))).isSome =
      true := by decide

/-- C7 amended: in the bare-URL branch the default is substituted for the
summary *candidate* before Category Extraction — the returned summary is
`parseCategory` applied to the defaulted candidate, and it can therefore be
empty (when the defaulted candidate reduces to a category keyword). -/
theorem parseNewsBullet_url_branch_summary (line : String)
    (before urlRaw after : List Char)
    (h1 : findMarkdownLink (trimChars (stripBulletMarker line.data)) = none)
    (h2 : findUrl (trimChars (stripBulletMarker line.data)) = some (before, urlRaw, after)) :
    ∃ item, parseNewsBullet line = some item ∧
      item.summary = String.mk (parseCategoryChars (urlBranchCandidate before after)).2.1 := by
  simp only [parseNewsBullet, parseNewsBulletChars, h1, h2]
  exact ⟨_, rfl, rfl⟩

/-- C7 witness for the amended theorem, at a line whose candidate is
non-empty ordinary text. -/
theorem parseNewsBullet_url_branch_summary_witness :
    ∃ item, parseNewsBullet "- T - x https://a.com b" = some item ∧
      item.summary =
        String.mk (parseCategoryChars (urlBranchCandidate "T - x ".data " b".data)).2.1 :=
  parseNewsBullet_url_branch_summary "- T - x https://a.com b"
    "T - x ".data "https://a.com".data " b".data (by decide) (by decide)

/-! ## C8 — category keyword matching -/

/-- When the case-insensitive prefix test succeeds, the lowered `m`-prefix of
the subject agrees with the lowered `m`-prefix of the pattern, for `m` up to
the pattern length. -/
theorem lower_take_eq (s p : List Char) (m : Nat) (hm : m ≤ p.length)
    (h : ciStartsWith s p = true) :
    (lowerChars s).take m = (lowerChars p).take m := by
  have h2 := (of_decide_eq_true h).2
  have h1 : (lowerChars (s.take p.length)).take m = (lowerChars p).take m := by rw [h2]
  simpa [lowerChars, ← List.map_take, List.take_take, Nat.min_eq_left hm] using h1

/-- Two patterns whose lowered `m`-prefixes differ cannot both pass the
case-insensitive prefix test on the same subject. -/
theorem ciStartsWith_conflict (s p q : List Char) (m : Nat)
    (hm : m ≤ p.length) (hm' : m ≤ q.length)
    (hne : (lowerChars p).take m ≠ (lowerChars q).take m)
    (hp : ciStartsWith s p = true) : ciStartsWith s q = false := by
  by_contra h
  rw [Bool.not_eq_false] at h
  exact hne ((lower_take_eq s p m hm hp).symm.trans (lower_take_eq s q m hm' h))

theorem tryKeyword_of_not_ci (pat s : List Char) (h : ciStartsWith s pat = false) :
    tryKeyword pat s = none := by
  simp [tryKeyword, h]

theorem tryKeyword_of_ci (pat s : List Char) (hpre : ciStartsWith s pat = true)
    (hbound : ((s.drop pat.length).head?.all fun c => !isWordChar c) = true) :
    tryKeyword pat s = some (s.take pat.length, s.drop pat.length) := by
  cases hh : (s.drop pat.length).head? with
  | none => simp [tryKeyword, hpre, hh]
  | some c =>
    have hw : isWordChar c = false := by
      have := hbound
      rw [hh] at this
      simpa using this
    simp [tryKeyword, hpre, hh, hw]

/-- When the keyword regex matched and no line terminator survives past the
separator run, the category branch assigns the keyword's normalized category
and the trimmed tail as summary. -/
theorem categoryBranch_eq (cleaned : List Char) (tags : List (List Char))
    (k r : List Char) (hm : matchKeyword cleaned = some (k, r))
    (hnl : (r.dropWhile isSepClass).any isRegexNl = false) :
    categoryBranch cleaned tags =
      (normalizeCategory k, trimChars (r.dropWhile isSepClass), tags) := by
  unfold categoryBranch
  rw [hm]
  simp [hnl]

/-- The keyword alternation resolves to the (unique) alternative that passes
the case-insensitive prefix test with a word boundary. -/
theorem matchKeyword_of_ci (cl kw : List Char)
    (hk : kw = "Local".data ∨ kw = "International".data ∨ kw = "Interest".data ∨
      kw = "Social".data)
    (hpre : ciStartsWith cl kw = true)
    (hbound : ((cl.drop kw.length).head?.all fun c => !isWordChar c) = true) :
    matchKeyword cl = some (cl.take kw.length, cl.drop kw.length) := by
  rcases hk with hk | hk | hk | hk <;> subst hk
  · rw [matchKeyword, tryKeyword_of_ci _ _ hpre hbound]
  · rw [matchKeyword,
      tryKeyword_of_not_ci _ _
        (ciStartsWith_conflict cl _ _ 1 (by decide) (by decide) (by decide) hpre),
      tryKeyword_of_ci _ _ hpre hbound]
  · rw [matchKeyword,
      tryKeyword_of_not_ci _ _
        (ciStartsWith_conflict cl _ _ 1 (by decide) (by decide) (by decide) hpre),
      tryKeyword_of_not_ci _ _
        (ciStartsWith_conflict cl _ _ 6 (by decide) (by decide) (by decide) hpre),
      tryKeyword_of_ci _ _ hpre hbound]
  · rw [matchKeyword,
      tryKeyword_of_not_ci _ _
        (ciStartsWith_conflict cl _ _ 1 (by decide) (by decide) (by decide) hpre),
      tryKeyword_of_not_ci _ _
        (ciStartsWith_conflict cl _ _ 1 (by decide) (by decide) (by decide) hpre),
      tryKeyword_of_not_ci _ _
        (ciStartsWith_conflict cl _ _ 1 (by decide) (by decide) (by decide) hpre),
      tryKeyword_of_ci _ _ hpre hbound]

/-- C8 counterexample: `"Locally"` starts (case-insensitively) with the
keyword `Local`, but `parseCategory` assigns `Other`, because the regex
requires a word boundary after the keyword — matching is not a bare
case-insensitive `startswith`. -/
theorem parseCategory_prefix_variant_cex :
    ciStartsWith (extractTags "Locally closed".data).1 "Local".data = true ∧
    (parseCategory "Locally closed").category = NewsCategory.Other := by decide

/-- C8 amended: keyword matching is case-insensitive on the exact keyword but
requires a word boundary after it; when the bracket-stripped text starts
case-insensitively with a keyword followed by a non-word character (or the
end), and no line terminator survives past the separator run, the keyword's
category (as computed by the prefix-based `normalizeCategory`) is assigned.
Prefix variants such as `"Locally"` do not match (see the counterexample). -/
theorem parseCategory_keyword_boundary (text kw : String)
    (hmem : kw = "Local" ∨ kw = "International" ∨ kw = "Interest" ∨ kw = "Social")
    (hpre : ciStartsWith (extractTags text.data).1 kw.data = true)
    (hbound : (((extractTags text.data).1.drop kw.data.length).head?.all
      fun c => !isWordChar c) = true)
    (hnl : (((extractTags text.data).1.drop kw.data.length).dropWhile isSepClass).any
      isRegexNl = false) :
    (parseCategory text).category = normalizeCategory kw.data ∧
    normalizeCategory kw.data ≠ NewsCategory.Other := by
  have hkl : kw.data = "Local".data ∨ kw.data = "International".data ∨
      kw.data = "Interest".data ∨ kw.data = "Social".data := by
    rcases hmem with h | h | h | h <;> subst h <;> simp
  have hne : text.data ≠ [] := by
    intro h
    rw [show (extractTags text.data).1 = text.data from by rw [h]; rfl, h] at hpre
    rcases hkl with hk | hk | hk | hk <;> rw [hk] at hpre <;> exact absurd hpre (by decide)
  have hmk := matchKeyword_of_ci (extractTags text.data).1 kw.data hkl hpre hbound
  have hbr := categoryBranch_eq (extractTags text.data).1 (extractTags text.data).2
    ((extractTags text.data).1.take kw.data.length)
    ((extractTags text.data).1.drop kw.data.length) hmk hnl
  have hcat : (parseCategory text).category =
      normalizeCategory ((extractTags text.data).1.take kw.data.length) := by
    show (parseCategoryChars text.data).1 = _
    rw [parseCategoryChars, if_neg hne, hbr]
  have hlow : lowerChars ((extractTags text.data).1.take kw.data.length) =
      lowerChars kw.data := (of_decide_eq_true hpre).2
  have hnorm : normalizeCategory ((extractTags text.data).1.take kw.data.length) =
      normalizeCategory kw.data := by
    simp only [normalizeCategory, hlow]
  refine ⟨hcat.trans hnorm, ?_⟩
  rcases hkl with hk | hk | hk | hk <;> rw [hk] <;> decide

/-- C8 witness for the amended theorem, at `"LOCAL: hi"` with keyword
`Local`. -/
theorem parseCategory_keyword_boundary_witness :
    (parseCategory "LOCAL: hi").category = normalizeCategory "Local".data ∧
    normalizeCategory "Local".data ≠ NewsCategory.Other :=
  parseCategory_keyword_boundary "LOCAL: hi" "Local" (Or.inl rfl)
    (by decide) (by decide) (by decide)

/-! ## C9 — idempotence of tag extraction -/

theorem scanTagClose_some (l : List Char) (p : List Char × List Char)
    (h : scanTagClose l = some p) : l = p.1 ++ ']' :: p.2 := by
  induction l generalizing p with
  | nil => exact absurd h (by simp [scanTagClose])
  | cons c rest ih =>
    rw [scanTagClose] at h
    split at h
    · rename_i hc
      injection h with h2
      subst h2
      subst hc
      rfl
    · split at h
      · exact Option.noConfusion h
      · rw [Option.map_eq_some'] at h
        obtain ⟨q, hq, hp⟩ := h
        subst hp
        simpa using congrArg (c :: ·) (ih q hq)

theorem tryTagAt_some (l : List Char) (p : List Char × List Char)
    (h : tryTagAt l = some p) : l = p.1 ++ ']' :: p.2 := by
  cases l with
  | nil => exact absurd h (by simp [tryTagAt])
  | cons c0 rest =>
    rw [tryTagAt] at h
    split at h
    · exact Option.noConfusion h
    · rw [Option.map_eq_some'] at h
      obtain ⟨q, hq, hp⟩ := h
      subst hp
      simpa using congrArg (c0 :: ·) (scanTagClose_some rest q hq)

theorem findTagMatch_some (l : List Char) (b g a : List Char)
    (h : findTagMatch l = some (b, g, a)) : l = b ++ '[' :: (g ++ ']' :: a) := by
  induction l generalizing b with
  | nil => exact absurd h (by simp [findTagMatch])
  | cons c rest ih =>
    rw [findTagMatch] at h
    split at h
    · rename_i hc
      subst hc
      cases ht : tryTagAt rest with
      | some q =>
        rw [ht] at h
        injection h with h2
        rw [Prod.ext_iff, Prod.ext_iff] at h2
        obtain ⟨hb, hg, ha⟩ := h2
        simp only at hb hg ha
        subst hb
        subst hg
        subst ha
        simpa using congrArg ('[' :: ·) (tryTagAt_some rest q ht)
      | none =>
        rw [ht, Option.map_eq_some'] at h
        obtain ⟨⟨q1, q2, q3⟩, hq, hp⟩ := h
        rw [Prod.ext_iff, Prod.ext_iff] at hp
        obtain ⟨hb, hg, ha⟩ := hp
        simp only at hb hg ha
        subst hb
        subst hg
        subst ha
        simpa using congrArg ('[' :: ·) (ih q1 hq)
    · rw [Option.map_eq_some'] at h
      obtain ⟨⟨q1, q2, q3⟩, hq, hp⟩ := h
      rw [Prod.ext_iff, Prod.ext_iff] at hp
      obtain ⟨hb, hg, ha⟩ := hp
      simp only at hb hg ha
      subst hb
      subst hg
      subst ha
      simpa using congrArg (c :: ·) (ih q1 hq)

theorem findTagMatch_of_not_mem (l : List Char) (h : '[' ∉ l) :
    findTagMatch l = none := by
  induction l with
  | nil => rfl
  | cons c rest ih =>
    have hc : ¬(c = '[') := fun hcc => h (by rw [hcc]; exact List.mem_cons_self '[' rest)
    have hr : '[' ∉ rest := fun hrr => h (List.mem_cons_of_mem c hrr)
    rw [findTagMatch, if_neg hc, ih hr]
    rfl

theorem scanTagClose_none_take (l : List Char) (n : Nat)
    (h : scanTagClose l = none) : scanTagClose (l.take n) = none := by
  induction l generalizing n with
  | nil => simp [scanTagClose]
  | cons c rest ih =>
    cases n with
    | zero => rfl
    | succ m =>
      by_cases hc : c = ']'
      · subst hc
        simp [scanTagClose] at h
      · by_cases hn : isRegexNl c
        · simp [scanTagClose, hc, hn]
        · simp only [scanTagClose, hc, hn, if_false, Bool.false_eq_true,
            Option.map_eq_none'] at h
          simp only [List.take_succ_cons, scanTagClose, hc, hn, if_false,
            Bool.false_eq_true, Option.map_eq_none']
          exact ih m h

theorem tryTagAt_none_take (l : List Char) (n : Nat)
    (h : tryTagAt l = none) : tryTagAt (l.take n) = none := by
  cases l with
  | nil => simp [tryTagAt]
  | cons c0 rest =>
    cases n with
    | zero => rfl
    | succ m =>
      by_cases hn : isRegexNl c0
      · simp [tryTagAt, hn]
      · simp only [tryTagAt, hn, if_false, Bool.false_eq_true,
          Option.map_eq_none'] at h
        simp only [List.take_succ_cons, tryTagAt, hn, if_false, Bool.false_eq_true,
          Option.map_eq_none']
        exact scanTagClose_none_take rest m h

theorem findTagMatch_none_cons (c : Char) (l : List Char)
    (h : findTagMatch (c :: l) = none) : findTagMatch l = none := by
  rw [findTagMatch] at h
  by_cases hc : c = '['
  · simp only [hc, if_pos rfl] at h
    cases ht : tryTagAt l with
    | some q => rw [ht] at h; exact absurd h (by simp)
    | none => rw [ht] at h; simpa using h
  · simp only [hc, if_false] at h
    simpa using h

theorem findTagMatch_none_take (l : List Char) (n : Nat)
    (h : findTagMatch l = none) : findTagMatch (l.take n) = none := by
  induction l generalizing n with
  | nil => simp [findTagMatch]
  | cons c rest ih =>
    cases n with
    | zero => rfl
    | succ m =>
      have hrest := findTagMatch_none_cons c rest h
      rw [List.take_succ_cons]
      rw [findTagMatch] at h ⊢
      by_cases hc : c = '['
      · subst hc
        rw [if_pos rfl] at h ⊢
        cases ht : tryTagAt rest with
        | some q => rw [ht] at h; exact absurd h (by simp)
        | none =>
          rw [tryTagAt_none_take rest m ht]
          simp [ih m hrest]
      · rw [if_neg hc] at h ⊢
        simp [ih m hrest]

theorem findTagMatch_none_append (s l : List Char)
    (h : findTagMatch (s ++ l) = none) : findTagMatch l = none := by
  induction s with
  | nil => exact h
  | cons c rest ih => exact ih (findTagMatch_none_cons c (rest ++ l) h)

theorem findTagMatch_none_of_inf (l' l : List Char) (hinf : l' <:+: l)
    (h : findTagMatch l = none) : findTagMatch l' = none := by
  obtain ⟨s, t, hst⟩ := hinf
  subst hst
  rw [List.append_assoc] at h
  have h1 : findTagMatch (l' ++ t) = none := findTagMatch_none_append s (l' ++ t) h
  have h2 := findTagMatch_none_take (l' ++ t) l'.length h1
  rwa [List.take_left] at h2

theorem trimRight_isPref (l : List Char) : trimRight l <+: l := by
  have h : l.reverse.dropWhile isWs <:+ l.reverse := List.dropWhile_suffix isWs
  have h2 := List.reverse_prefix.mpr h
  rw [List.reverse_reverse] at h2
  exact h2

theorem trimChars_isInf (l : List Char) : trimChars l <:+: l :=
  ((trimRight_isPref (trimLeft l)).isInfix).trans ((List.dropWhile_suffix isWs).isInfix)

theorem mem_trimChars (c : Char) (l : List Char) (h : c ∈ trimChars l) : c ∈ l :=
  (trimChars_isInf l).subset h

theorem tryKeyword_shape (pat s : List Char) (p : List Char × List Char)
    (h : tryKeyword pat s = some p) : p = (s.take pat.length, s.drop pat.length) := by
  by_cases hci : ciStartsWith s pat
  · simp only [tryKeyword, hci, if_pos] at h
    cases hh : (s.drop pat.length).head? with
    | none => rw [hh] at h; simpa using h.symm
    | some c =>
      rw [hh] at h
      by_cases hw : isWordChar c
      · simp [hw] at h
      · simp only [hw, Bool.false_eq_true, if_false, Option.some.injEq] at h
        exact h.symm
  · simp [tryKeyword, hci] at h

theorem matchKeyword_shape (s : List Char) (k r : List Char)
    (h : matchKeyword s = some (k, r)) :
    ∃ n, k = s.take n ∧ r = s.drop n := by
  have shape : ∀ pat : List Char, tryKeyword pat s = some (k, r) →
      ∃ n, k = s.take n ∧ r = s.drop n := by
    intro pat hp
    have hs := tryKeyword_shape pat s (k, r) hp
    rw [Prod.ext_iff] at hs
    exact ⟨pat.length, by simpa using hs.1, by simpa using hs.2⟩
  rw [matchKeyword] at h
  cases h1 : tryKeyword "Local".data s with
  | some p =>
    rw [h1] at h
    exact shape _ (h1.trans h)
  | none =>
    rw [h1] at h
    cases h2 : tryKeyword "International".data s with
    | some p =>
      rw [h2] at h
      exact shape _ (h2.trans h)
    | none =>
      rw [h2] at h
      cases h3 : tryKeyword "Interest".data s with
      | some p =>
        rw [h3] at h
        exact shape _ (h3.trans h)
      | none =>
        rw [h3] at h
        exact shape _ h

/-- The category branch passes its tag list through unchanged. -/
theorem categoryBranch_tags (cleaned : List Char) (tags : List (List Char)) :
    (categoryBranch cleaned tags).2.2 = tags := by
  unfold categoryBranch
  rcases matchKeyword cleaned with _ | ⟨k, r⟩
  · rfl
  · by_cases hnl : (r.dropWhile isSepClass).any isRegexNl <;> simp [hnl]

/-- When the text admits no tag match, the extracted tag list is empty. -/
theorem tags_nil_of_no_match (s : List Char) (h : findTagMatch s = none) :
    (parseCategoryChars s).2.2 = [] := by
  by_cases hs : s = []
  · subst hs
    rfl
  · have het : extractTags s = (s, []) := by
      rw [extractTags, h]
    rw [parseCategoryChars, if_neg hs, het, categoryBranch_tags]

/-- If the bracket-stripped text admits no tag match, neither does the summary
the category branch returns. -/
theorem categoryBranch_summary_no_match (cleaned : List Char) (tags : List (List Char))
    (h : findTagMatch cleaned = none) :
    findTagMatch (categoryBranch cleaned tags).2.1 = none := by
  unfold categoryBranch
  rcases hm : matchKeyword cleaned with _ | ⟨k, r⟩
  · exact h
  · obtain ⟨n, -, hr⟩ := matchKeyword_shape cleaned k r hm
    subst hr
    by_cases hnl : ((cleaned.drop n).dropWhile isSepClass).any isRegexNl
    · simpa [hnl] using h
    · simp only [hnl, Bool.false_eq_true, if_false]
      refine findTagMatch_none_of_inf _ _ ?_ h
      exact ((trimChars_isInf _).trans
        ((List.dropWhile_suffix isSepClass).isInfix)).trans
        ((List.drop_suffix n cleaned).isInfix)

/-- C9 counterexample: with two bracketed groups, `parseCategory` strips only
the first, so re-running it on the returned summary extracts the second
group's tags — the re-run tag list is not empty. -/
theorem parseCategory_tags_rerun_cex :
    (parseCategory (parseCategory "[a] [b] x").summary).tags = ["b"] ∧
    (parseCategory (parseCategory "[a] [b] x").summary).tags ≠ [] := by decide

/-- C9 amended: `parseCategory` removes only the first bracketed group, so
the idempotence of the tag extraction holds for inputs containing at most one
`[` character: re-running `parseCategory` on the returned summary then yields
an empty tag list. Inputs with a second bracketed group re-extract it (see
the counterexample). -/
theorem parseCategory_tags_idem (text : String)
    (hcount : text.data.count '[' ≤ 1) :
    (parseCategory (parseCategory text).summary).tags = [] := by
  have key : ∀ s : List Char, (parseCategory (String.mk s)).tags =
      ((parseCategoryChars s).2.2).map String.mk := fun s => rfl
  have hdata : (parseCategory text).summary.data = (parseCategoryChars text.data).2.1 := rfl
  suffices h : findTagMatch (parseCategoryChars text.data).2.1 = none by
    have : (parseCategory (parseCategory text).summary).tags =
        ((parseCategoryChars (parseCategoryChars text.data).2.1).2.2).map String.mk := rfl
    rw [this, tags_nil_of_no_match _ h]
    rfl
  by_cases hs : text.data = []
  · rw [parseCategoryChars, if_pos hs, hs]
    rfl
  · rw [parseCategoryChars, if_neg hs]
    rcases hft : findTagMatch text.data with _ | ⟨b, g, a⟩
    · have het : extractTags text.data = (text.data, []) := by rw [extractTags, hft]
      rw [het]
      exact categoryBranch_summary_no_match _ _ hft
    · have hrec := findTagMatch_some text.data b g a hft
      have hzero : text.data.count '[' =
          b.count '[' + (1 + (g.count '[' + a.count '[')) := by
        rw [hrec]
        simp [List.count_append, List.count_cons]
        ring
      have hb : '[' ∉ b ++ a := by
        have hbz : b.count '[' = 0 ∧ a.count '[' = 0 := by omega
        intro hmem
        rcases List.mem_append.mp hmem with hm | hm
        · exact absurd (List.count_eq_zero.mp hbz.1) (fun hn => hn hm)
        · exact absurd (List.count_eq_zero.mp hbz.2) (fun hn => hn hm)
      have het : extractTags text.data =
          (trimChars (b ++ a),
           ((splitOnChar ',' g).map trimChars).filter (· ≠ [])) := by
        rw [extractTags, hft]
      rw [het]
      apply categoryBranch_summary_no_match
      exact findTagMatch_of_not_mem _ (fun hm => hb (mem_trimChars _ _ hm))

/-- C9 witness for the amended theorem, at an input with a single bracketed
group. -/
theorem parseCategory_tags_idem_witness :
    (parseCategory (parseCategory "Local [Tech] - chips").summary).tags = [] :=
  parseCategory_tags_idem "Local [Tech] - chips" (by decide)

/-! ## C4 — observer invocations and completion of the poll loop -/

theorem observedData_cons_observed (d : TaskData) (evs : List PollEvent) :
    observedData (.observed d :: evs) = d :: observedData evs := rfl

theorem observedData_statusLog (d : TaskData) (evs : List PollEvent) :
    observedData (statusLogFn d ++ evs) = observedData evs := by
  rw [statusLogFn]
  by_cases h : d.status ≠ "" ∧ d.status ≠ "running" ∧ d.status ≠ "pending" <;>
    simp [h, observedData]

/-- C4: after a successful creation, a script of `n` ok non-terminal poll
responses followed by one ok `completed` response, all checks within
`maxPollMs`, invokes the observer exactly once per successful poll response,
in order (`n + 1` invocations), and the loop returns the completed payload. -/
theorem runManusTask_observer_per_poll (maxP intP : Nat)
    (body : List (Nat × TaskData)) (dn : Nat) (last : TaskData) (e : Nat)
    (hbody : ∀ x ∈ body, x.2.status ≠ "completed" ∧ x.2.status ≠ "failed")
    (hlast : last.status = "completed")
    (htime : checksWithin maxP intP
      (body.map (fun x => (x.1, PollResp.ok x.2)) ++ [(dn, PollResp.ok last)]) e = true) :
    observedData (pollLoop maxP intP
        (body.map (fun x => (x.1, PollResp.ok x.2)) ++ [(dn, PollResp.ok last)]) e).1 =
      body.map (·.2) ++ [last] ∧
    (pollLoop maxP intP
        (body.map (fun x => (x.1, PollResp.ok x.2)) ++ [(dn, PollResp.ok last)]) e).2 =
      PollOutcome.completed last := by
  induction body generalizing e with
  | nil =>
    simp only [List.map_nil, List.nil_append] at htime ⊢
    rw [checksWithin] at htime
    rw [Bool.and_eq_true, decide_eq_true_eq] at htime
    rw [pollLoop, if_neg (by omega : ¬maxP ≤ e), if_pos hlast]
    dsimp only
    refine ⟨?_, rfl⟩
    rw [observedData_cons_observed]
    have : observedData (statusLogFn last ++ [PollEvent.logCompleted]) =
        observedData [PollEvent.logCompleted] := observedData_statusLog last _
    rw [this]
    rfl
  | cons hd tl ih =>
    have hhd := hbody hd (List.mem_cons_self hd tl)
    have htl : ∀ x ∈ tl, x.2.status ≠ "completed" ∧ x.2.status ≠ "failed" :=
      fun x hx => hbody x (List.mem_cons_of_mem hd hx)
    obtain ⟨d1, t1⟩ := hd
    simp only [List.map_cons, List.cons_append] at htime ⊢
    rw [checksWithin] at htime
    rw [Bool.and_eq_true, decide_eq_true_eq] at htime
    have hrec := ih (e + intP + d1) htl htime.2
    rw [pollLoop, if_neg (by omega : ¬maxP ≤ e), if_neg hhd.1, if_neg hhd.2]
    dsimp only
    refine ⟨?_, hrec.2⟩
    rw [observedData_cons_observed, observedData_statusLog, hrec.1]

/-- C4 witness: three `running` responses then a `completed` one — four
observer invocations, in order, and the completed payload is returned. -/
theorem runManusTask_observer_per_poll_witness :
    observedData (pollLoop 100 1
        ([(0, PollResp.ok ⟨"running", none, []⟩), (0, PollResp.ok ⟨"running", none, []⟩),
          (0, PollResp.ok ⟨"running", none, []⟩)] ++
         [(2, PollResp.ok ⟨"completed", none, ["done"]⟩)]) 0).1 =
      [⟨"running", none, []⟩, ⟨"running", none, []⟩, ⟨"running", none, []⟩] ++
        [⟨"completed", none, ["done"]⟩] ∧
    (pollLoop 100 1
        ([(0, PollResp.ok ⟨"running", none, []⟩), (0, PollResp.ok ⟨"running", none, []⟩),
          (0, PollResp.ok ⟨"running", none, []⟩)] ++
         [(2, PollResp.ok ⟨"completed", none, ["done"]⟩)]) 0).2 =
      PollOutcome.completed ⟨"completed", none, ["done"]⟩ :=
  runManusTask_observer_per_poll 100 1
    [(0, ⟨"running", none, []⟩), (0, ⟨"running", none, []⟩), (0, ⟨"running", none, []⟩)]
    2 ⟨"completed", none, ["done"]⟩ 0 (by decide) (by decide) (by decide)

/-! ## C5 — error conditions of the poll loop -/

theorem pollLoop_failed_sound (maxP intP : Nat) (s : List (Nat × PollResp))
    (e : Nat) (msg : String)
    (h : (pollLoop maxP intP s e).2 = .failed msg) : failsAt maxP intP e s msg := by
  induction s generalizing e with
  | nil =>
    rw [pollLoop] at h
    by_cases ht : maxP ≤ e
    · rw [if_pos ht] at h
      exact absurd h (by simp)
    · rw [if_neg ht] at h
      exact absurd h (by simp)
  | cons head rest ih =>
    obtain ⟨d, resp⟩ := head
    cases resp with
    | httpErr code =>
      rw [pollLoop] at h
      by_cases ht : maxP ≤ e
      · rw [if_pos ht] at h
        exact absurd h (by simp)
      · rw [if_neg ht] at h
        dsimp only at h
        obtain ⟨p, d', data, rest', hsplit, hnon, hchk, helap, hst, hmsg⟩ :=
          ih (e + intP + d) h
        refine ⟨(d, .httpErr code) :: p, d', data, rest', by rw [hsplit]; rfl, ?_, ?_, ?_,
          hst, hmsg⟩
        · intro x hx
          rcases List.mem_cons.mp hx with hx | hx
          · rw [hx]
            rfl
          · exact hnon x hx
        · rw [checksWithin, Bool.and_eq_true, decide_eq_true_eq]
          exact ⟨by omega, hchk⟩
        · rw [elapsedAfter]
          exact helap
    | ok data =>
      rw [pollLoop] at h
      by_cases ht : maxP ≤ e
      · rw [if_pos ht] at h
        exact absurd h (by simp)
      · rw [if_neg ht] at h
        by_cases hc : data.status = "completed"
        · rw [if_pos hc] at h
          exact absurd h (by simp)
        · rw [if_neg hc] at h
          by_cases hf : data.status = "failed"
          · rw [if_pos hf] at h
            dsimp only at h
            injection h with hm
            exact ⟨[], d, data, rest, rfl, by simp, rfl, by rw [elapsedAfter]; omega,
              hf, hm.symm⟩
          · rw [if_neg hf] at h
            dsimp only at h
            obtain ⟨p, d', data', rest', hsplit, hnon, hchk, helap, hst, hmsg⟩ :=
              ih (e + intP + d) h
            refine ⟨(d, .ok data) :: p, d', data', rest', by rw [hsplit]; rfl, ?_, ?_, ?_,
              hst, hmsg⟩
            · intro x hx
              rcases List.mem_cons.mp hx with hx | hx
              · rw [hx]
                simp [nonTerminal, hc, hf]
              · exact hnon x hx
            · rw [checksWithin, Bool.and_eq_true, decide_eq_true_eq]
              exact ⟨by omega, hchk⟩
            · rw [elapsedAfter]
              exact helap

/-- The loop skips a prefix of responses it continues on (each within time),
accumulating the elapsed time. -/
theorem pollLoop_skipPre (maxP intP : Nat) (p : List (Nat × PollResp)) :
    ∀ (e : Nat) (rest : List (Nat × PollResp)),
    (∀ x ∈ p, nonTerminal x.2 = true) →
    checksWithin maxP intP p e = true →
    (pollLoop maxP intP (p ++ rest) e).2 =
      (pollLoop maxP intP rest (elapsedAfter intP p e)).2 := by
  induction p with
  | nil =>
    intro e rest _ _
    rw [List.nil_append, elapsedAfter]
  | cons q p' ih =>
    intro e rest hnon hchk
    obtain ⟨dq, respq⟩ := q
    rw [checksWithin, Bool.and_eq_true, decide_eq_true_eq] at hchk
    have hq := hnon (dq, respq) (List.mem_cons_self _ _)
    have hrec := ih (e + intP + dq) rest
      (fun x hx => hnon x (List.mem_cons_of_mem _ hx)) hchk.2
    rw [elapsedAfter]
    cases respq with
    | httpErr code =>
      rw [List.cons_append, pollLoop, if_neg (by omega : ¬maxP ≤ e)]
      exact hrec
    | ok dataq =>
      rw [nonTerminal, Bool.and_eq_true, decide_eq_true_eq, decide_eq_true_eq] at hq
      rw [List.cons_append, pollLoop, if_neg (by omega : ¬maxP ≤ e),
        if_neg hq.1, if_neg hq.2]
      exact hrec

theorem pollLoop_failed_complete (maxP intP : Nat) (s : List (Nat × PollResp))
    (e : Nat) (msg : String)
    (hf : failsAt maxP intP e s msg) : (pollLoop maxP intP s e).2 = .failed msg := by
  obtain ⟨p, d, data, rest, hsplit, hnon, hchk, helap, hst, hmsg⟩ := hf
  subst hsplit
  rw [pollLoop_skipPre maxP intP p e ((d, PollResp.ok data) :: rest) hnon hchk]
  rw [pollLoop, if_neg (by omega : ¬maxP ≤ elapsedAfter intP p e),
    if_neg (by rw [hst]; decide : ¬data.status = "completed"), if_pos hst]
  rw [hmsg]

theorem pollLoop_timeout_sound (maxP intP : Nat) (s : List (Nat × PollResp)) (e : Nat)
    (h : (pollLoop maxP intP s e).2 = .timedOut) : timesOutAt maxP intP e s := by
  induction s generalizing e with
  | nil =>
    rw [pollLoop] at h
    by_cases ht : maxP ≤ e
    · exact ⟨[], [], rfl, by simp, rfl, by rw [elapsedAfter]; omega⟩
    · rw [if_neg ht] at h
      exact absurd h (by simp)
  | cons head rest ih =>
    obtain ⟨d, resp⟩ := head
    by_cases ht : maxP ≤ e
    · exact ⟨[], (d, resp) :: rest, rfl, by simp, rfl, by rw [elapsedAfter]; omega⟩
    · cases resp with
      | httpErr code =>
        rw [pollLoop, if_neg ht] at h
        dsimp only at h
        obtain ⟨p, rest', hsplit, hnon, hchk, helap⟩ := ih (e + intP + d) h
        refine ⟨(d, .httpErr code) :: p, rest', by rw [hsplit]; rfl, ?_, ?_, ?_⟩
        · intro x hx
          rcases List.mem_cons.mp hx with hx | hx
          · rw [hx]
            rfl
          · exact hnon x hx
        · rw [checksWithin, Bool.and_eq_true, decide_eq_true_eq]
          exact ⟨by omega, hchk⟩
        · rw [elapsedAfter]
          exact helap
      | ok data =>
        rw [pollLoop, if_neg ht] at h
        by_cases hc : data.status = "completed"
        · rw [if_pos hc] at h
          exact absurd h (by simp)
        · rw [if_neg hc] at h
          by_cases hfd : data.status = "failed"
          · rw [if_pos hfd] at h
            exact absurd h (by simp)
          · rw [if_neg hfd] at h
            dsimp only at h
            obtain ⟨p, rest', hsplit, hnon, hchk, helap⟩ := ih (e + intP + d) h
            refine ⟨(d, .ok data) :: p, rest', by rw [hsplit]; rfl, ?_, ?_, ?_⟩
            · intro x hx
              rcases List.mem_cons.mp hx with hx | hx
              · rw [hx]
                simp [nonTerminal, hc, hfd]
              · exact hnon x hx
            · rw [checksWithin, Bool.and_eq_true, decide_eq_true_eq]
              exact ⟨by omega, hchk⟩
            · rw [elapsedAfter]
              exact helap

theorem pollLoop_timeout_complete (maxP intP : Nat) (s : List (Nat × PollResp)) (e : Nat)
    (ht : timesOutAt maxP intP e s) : (pollLoop maxP intP s e).2 = .timedOut := by
  obtain ⟨p, rest, hsplit, hnon, hchk, helap⟩ := ht
  subst hsplit
  rw [pollLoop_skipPre maxP intP p e rest hnon hchk]
  cases rest with
  | nil => rw [pollLoop, if_pos helap]
  | cons head r =>
    obtain ⟨d, resp⟩ := head
    cases resp with
    | httpErr code => rw [pollLoop, if_pos helap]
    | ok data => rw [pollLoop, if_pos helap]

/-- C5: after a successful creation, the loop raises exactly when a reached
poll response reports status `failed` (carrying the task's reported error or
the generic fallback) or when `maxPollMs` elapses without a terminal
response; a non-success HTTP poll response never raises — it contributes one
log entry and the loop continues. -/
theorem runManusTask_raises_iff (maxP intP : Nat) (script : List (Nat × PollResp))
    (e : Nat) :
    (∀ msg, (pollLoop maxP intP script e).2 = .failed msg ↔
      failsAt maxP intP e script msg) ∧
    ((pollLoop maxP intP script e).2 = .timedOut ↔ timesOutAt maxP intP e script) ∧
    (∀ d code rest, e < maxP →
      pollLoop maxP intP ((d, PollResp.httpErr code) :: rest) e =
        (PollEvent.logPollFailed code :: (pollLoop maxP intP rest (e + intP + d)).1,
         (pollLoop maxP intP rest (e + intP + d)).2)) := by
  refine ⟨fun msg => ⟨pollLoop_failed_sound maxP intP script e msg,
      pollLoop_failed_complete maxP intP script e msg⟩,
    ⟨pollLoop_timeout_sound maxP intP script e,
      pollLoop_timeout_complete maxP intP script e⟩,
    fun d code rest he => ?_⟩
  rw [pollLoop, if_neg (by omega : ¬maxP ≤ e)]

/-- C5 witness: a transient HTTP 500 poll followed by a `failed` status — the
loop continues past the HTTP error and raises the task's reported message. -/
theorem runManusTask_raises_iff_witness :
    (pollLoop 100 1
        [(0, PollResp.httpErr 500), (0, PollResp.ok ⟨"failed", some "boom", []⟩)] 0).2 =
      PollOutcome.failed "boom" :=
  ((runManusTask_raises_iff 100 1
      [(0, PollResp.httpErr 500), (0, PollResp.ok ⟨"failed", some "boom", []⟩)] 0).1
    "boom").mpr
    ⟨[(0, PollResp.httpErr 500)], 0, ⟨"failed", some "boom", []⟩, [], rfl,
      by decide, by decide, by decide, rfl, rfl⟩

/-! ## C6 / C10 — media enrichment -/

theorem countHalt_cons_fail (t m : String) (logs : List MediaLog) :
    countHalt (.failItem t m :: logs) = countHalt logs := by
  simp [countHalt, List.count_cons]

theorem countHalt_cons_start (logs : List MediaLog) :
    countHalt (.genStart :: logs) = countHalt logs := by
  simp [countHalt, List.count_cons]

theorem countHalt_append (a b : List MediaLog) :
    countHalt (a ++ b) = countHalt a + countHalt b := by
  simp [countHalt, List.count_append]

/-- A credential-missing outcome halts the iteration, leaving the current and
all remaining items untouched. -/
theorem genLoopCons_cred (r : ImgOutcome) (item : NewsItem)
    (rec : List MediaLog × List NewsItem) (rest : List NewsItem)
    (h : isCredentialError r = true) :
    genLoopCons r item rec rest = ([.halt], item :: rest) := by
  cases r with
  | thrown msg => exact absurd h (by simp [isCredentialError])
  | res url err =>
    rw [isCredentialError, Bool.and_eq_true, decide_eq_true_eq] at h
    rw [genLoopCons, if_pos h.1, if_pos h.2]

/-- A non-credential outcome contributes the per-item effect and possibly one
non-halting log line, then the loop continues. -/
theorem genLoopCons_noncred (r : ImgOutcome) (item : NewsItem)
    (rec : List MediaLog × List NewsItem) (rest : List NewsItem)
    (h : isCredentialError r = false) :
    ∃ pre, genLoopCons r item rec rest = (pre ++ rec.1, applyImgResult item r :: rec.2) ∧
      countHalt pre = 0 := by
  cases r with
  | thrown msg =>
    exact ⟨[.failItem item.title msg], rfl, by simp [countHalt, List.count_cons]⟩
  | res url err =>
    by_cases he : err = ""
    · by_cases hu : url = ""
      · refine ⟨[], ?_, rfl⟩
        rw [genLoopCons, if_neg (by simp [he]), if_pos hu]
        rw [applyImgResult, if_neg (by simp [he]), if_pos hu]
        rfl
      · refine ⟨[], ?_, rfl⟩
        rw [genLoopCons, if_neg (by simp [he]), if_neg hu]
        rw [applyImgResult, if_neg (by simp [he]), if_neg hu]
        rfl
    · have hcontains : containsList "Missing OPENAI_API_KEY".data err.data = false := by
        rw [isCredentialError] at h
        rw [decide_eq_true he, Bool.true_and] at h
        exact h
      refine ⟨[.failItem item.title err], ?_, by simp [countHalt, List.count_cons]⟩
      rw [genLoopCons, if_pos he, if_neg (by rw [hcontains]; exact Bool.false_ne_true)]
      rw [applyImgResult, if_pos he]
      rfl

/-- The loop result does not depend on the collaborator's outcomes past the
first credential-missing one: no further request is consulted. -/
theorem genLoop_agree (resps resps2 : Nat → ImgOutcome) :
    ∀ (items : List NewsItem) (i k : Nat), k < items.length →
    isCredentialError (resps (i + k)) = true →
    (∀ j, j ≤ k → resps2 (i + j) = resps (i + j)) →
    genLoop resps2 i items = genLoop resps i items := by
  intro items
  induction items with
  | nil =>
    intro i k hk _ _
    exact absurd hk (by simp)
  | cons item rest ih =>
    intro i k hk hcred h2
    have h0 : resps2 i = resps i := by simpa using h2 0 (Nat.zero_le k)
    rw [genLoop, genLoop, h0]
    by_cases hc : isCredentialError (resps i) = true
    · rw [genLoopCons_cred _ _ _ _ hc, genLoopCons_cred _ _ _ _ hc]
    · cases k with
      | zero => exact absurd (by simpa using hcred) hc
      | succ k' =>
        have hrec := ih (i + 1) k' (by simpa using Nat.lt_of_succ_lt_succ hk)
          (by rw [show i + 1 + k' = i + (k' + 1) from by omega]; exact hcred)
          (fun j hj => by
            rw [show i + 1 + j = i + (j + 1) from by omega]
            exact h2 (j + 1) (by omega))
        rw [hrec]

/-- The loop behaviour when the first credential-missing outcome arrives at
relative position `k`: earlier items get their per-item effect, the item at
`k` and all later ones are untouched, and exactly one halting line is
logged. -/
theorem genLoop_cred_main (resps : Nat → ImgOutcome) :
    ∀ (items : List NewsItem) (i k : Nat), k < items.length →
    isCredentialError (resps (i + k)) = true →
    (∀ j, j < k → isCredentialError (resps (i + j)) = false) →
    (genLoop resps i items).2.length = items.length ∧
    (∀ j, k ≤ j → j < items.length →
      (genLoop resps i items).2.getD j defaultNewsItem = items.getD j defaultNewsItem) ∧
    (∀ j, j < k →
      (genLoop resps i items).2.getD j defaultNewsItem =
        applyImgResult (items.getD j defaultNewsItem) (resps (i + j))) ∧
    countHalt (genLoop resps i items).1 = 1 := by
  intro items
  induction items with
  | nil =>
    intro i k hk _ _
    exact absurd hk (by simp)
  | cons item rest ih =>
    intro i k hk hcred hbefore
    cases k with
    | zero =>
      have hc : isCredentialError (resps i) = true := by simpa using hcred
      rw [genLoop, genLoopCons_cred _ _ _ _ hc]
      refine ⟨rfl, fun j _ _ => rfl, fun j hj => absurd hj (by omega), rfl⟩
    | succ k' =>
      have hb0 : isCredentialError (resps i) = false := by
        simpa using hbefore 0 (by omega)
      obtain ⟨pre, heq, hpre⟩ :=
        genLoopCons_noncred (resps i) item (genLoop resps (i + 1) rest) rest hb0
      have hrec := ih (i + 1) k' (by simpa using Nat.lt_of_succ_lt_succ hk)
        (by rw [show i + 1 + k' = i + (k' + 1) from by omega]; exact hcred)
        (fun j hj => by
          rw [show i + 1 + j = i + (j + 1) from by omega]
          exact hbefore (j + 1) (by omega))
      rw [genLoop, heq]
      refine ⟨by simp [hrec.1], ?_, ?_, ?_⟩
      · intro j hkj hjlen
        cases j with
        | zero => exact absurd hkj (by omega)
        | succ j' =>
          rw [List.getD_cons_succ, List.getD_cons_succ]
          exact hrec.2.1 j' (by omega) (by simpa using Nat.lt_of_succ_lt_succ hjlen)
      · intro j hj
        cases j with
        | zero =>
          rw [List.getD_cons_zero, List.getD_cons_zero]
          rw [show i + 0 = i from by omega]
        | succ j' =>
          rw [List.getD_cons_succ, List.getD_cons_succ]
          rw [hrec.2.2.1 j' (by omega), show i + 1 + j' = i + (j' + 1) from by omega]
      · rw [countHalt_append, hpre, hrec.2.2.2]

/-- The loop behaviour when no consulted outcome is credential-missing: every
item gets its per-item effect and no halting line is logged. -/
theorem genLoop_noncred_all (resps : Nat → ImgOutcome) :
    ∀ (items : List NewsItem) (i : Nat),
    (∀ j, j < items.length → isCredentialError (resps (i + j)) = false) →
    (genLoop resps i items).2.length = items.length ∧
    countHalt (genLoop resps i items).1 = 0 ∧
    (∀ j, j < items.length →
      (genLoop resps i items).2.getD j defaultNewsItem =
        applyImgResult (items.getD j defaultNewsItem) (resps (i + j))) := by
  intro items
  induction items with
  | nil => exact fun i _ => ⟨rfl, rfl, fun j hj => absurd hj (by simp)⟩
  | cons item rest ih =>
    intro i hb
    have hb0 : isCredentialError (resps i) = false := by simpa using hb 0 (by simp)
    obtain ⟨pre, heq, hpre⟩ :=
      genLoopCons_noncred (resps i) item (genLoop resps (i + 1) rest) rest hb0
    have hrec := ih (i + 1) (fun j hj => by
      rw [show i + 1 + j = i + (j + 1) from by omega]
      exact hb (j + 1) (by simpa using Nat.succ_lt_succ hj))
    rw [genLoop, heq]
    refine ⟨by simp [hrec.1], by rw [countHalt_append, hpre, hrec.2.1], ?_⟩
    intro j hj
    cases j with
    | zero =>
      rw [List.getD_cons_zero, List.getD_cons_zero, show i + 0 = i from by omega]
    | succ j' =>
      rw [List.getD_cons_succ, List.getD_cons_succ]
      rw [hrec.2.2 j' (by simpa using Nat.lt_of_succ_lt_succ hj),
        show i + 1 + j' = i + (j' + 1) from by omega]

/-- C6: enrichment never raises. With the first credential-missing response at
item `k`: items before `k` are processed one by one (an ordinary error leaves
only that item without media and the loop continues; a successful url is
adopted), the item at `k` and every later one stay untouched, exactly one
halting log line is appended, and the result does not depend on responses
past `k` (no further requests). Without any credential-missing response,
every item is processed per item and no halting line is logged. -/
theorem generateAiMedia_credential_halt :
    (∀ (items : List NewsItem) (resps : Nat → ImgOutcome) (k : Nat),
      k < items.length →
      isCredentialError (resps k) = true →
      (∀ j, j < k → isCredentialError (resps j) = false) →
      ((generateAiMedia items resps).2.length = items.length ∧
       (∀ j, k ≤ j → j < items.length →
         (generateAiMedia items resps).2.getD j defaultNewsItem =
           items.getD j defaultNewsItem) ∧
       (∀ j, j < k →
         (generateAiMedia items resps).2.getD j defaultNewsItem =
           applyImgResult (items.getD j defaultNewsItem) (resps j)) ∧
       countHalt (generateAiMedia items resps).1 = 1 ∧
       (∀ resps2 : Nat → ImgOutcome, (∀ j, j ≤ k → resps2 j = resps j) →
         generateAiMedia items resps2 = generateAiMedia items resps))) ∧
    (∀ (items : List NewsItem) (resps : Nat → ImgOutcome),
      (∀ j, j < items.length → isCredentialError (resps j) = false) →
      ((generateAiMedia items resps).2.length = items.length ∧
       countHalt (generateAiMedia items resps).1 = 0 ∧
       (∀ j, j < items.length →
         (generateAiMedia items resps).2.getD j defaultNewsItem =
           applyImgResult (items.getD j defaultNewsItem) (resps j)))) := by
  constructor
  · intro items resps k hk hcred hbefore
    have hne : ¬items = [] := by
      intro hnil
      rw [hnil] at hk
      exact absurd hk (by simp)
    have hmain := genLoop_cred_main resps items 0 k hk (by simpa using hcred)
      (fun j hj => by simpa using hbefore j hj)
    rw [generateAiMedia, if_neg hne]
    refine ⟨hmain.1, fun j h1 h2 => hmain.2.1 j h1 h2, ?_, ?_, ?_⟩
    · intro j hj
      rw [hmain.2.2.1 j hj]
      rw [show (0 : Nat) + j = j from by omega]
    · rw [countHalt_cons_start, hmain.2.2.2]
    · intro resps2 h2
      rw [generateAiMedia, if_neg hne,
        genLoop_agree resps resps2 items 0 k hk (by simpa using hcred)
          (fun j hj => by simpa using h2 j hj)]
  · intro items resps hb
    by_cases hne : items = []
    · subst hne
      exact ⟨rfl, rfl, fun j hj => absurd hj (by simp)⟩
    · have hmain := genLoop_noncred_all resps items 0 (fun j hj => by simpa using hb j hj)
      rw [generateAiMedia, if_neg hne]
      refine ⟨hmain.1, by rw [countHalt_cons_start, hmain.2.1], ?_⟩
      intro j hj
      rw [hmain.2.2 j hj, show (0 : Nat) + j = j from by omega]

/-- C6 witness: three items, a successful url for the first, the credential
signal for the second — the first keeps its enrichment slot, the second and
third are untouched, one halting line. -/
theorem generateAiMedia_credential_halt_witness :
    ((generateAiMedia [defaultNewsItem, defaultNewsItem, defaultNewsItem]
        (fun j => if j = 0 then .res "http://img" ""
          else .res "" "Missing OPENAI_API_KEY: set it"))).2.getD 1 defaultNewsItem =
      defaultNewsItem ∧
    countHalt ((generateAiMedia [defaultNewsItem, defaultNewsItem, defaultNewsItem]
        (fun j => if j = 0 then .res "http://img" ""
          else .res "" "Missing OPENAI_API_KEY: set it"))).1 = 1 := by
  have h := generateAiMedia_credential_halt.1
    [defaultNewsItem, defaultNewsItem, defaultNewsItem]
    (fun j => if j = 0 then .res "http://img" "" else .res "" "Missing OPENAI_API_KEY: set it")
    1 (by decide) (by decide) (by decide)
  exact ⟨h.2.1 1 (by omega) (by decide), h.2.2.2.1⟩

theorem frameRel_refl (a : NewsItem) : frameRel a a :=
  ⟨rfl, rfl, rfl, rfl, rfl, rfl, Or.inl ⟨rfl, rfl⟩⟩

theorem applyImgResult_frame (item : NewsItem) (r : ImgOutcome) :
    frameRel item (applyImgResult item r) := by
  cases r with
  | thrown msg => exact frameRel_refl item
  | res url err =>
    by_cases he : err = ""
    · by_cases hu : url = ""
      · rw [applyImgResult, if_neg (by simp [he]), if_pos hu]
        exact frameRel_refl item
      · rw [applyImgResult, if_neg (by simp [he]), if_neg hu]
        exact ⟨rfl, rfl, rfl, rfl, rfl, rfl, Or.inr ⟨rfl, rfl⟩⟩
    · rw [applyImgResult, if_pos he]
      exact frameRel_refl item

theorem genLoop_frame (resps : Nat → ImgOutcome) :
    ∀ (items : List NewsItem) (i : Nat),
    (genLoop resps i items).2.length = items.length ∧
    (∀ j, j < items.length →
      frameRel (items.getD j defaultNewsItem)
        ((genLoop resps i items).2.getD j defaultNewsItem)) := by
  intro items
  induction items with
  | nil => exact fun i => ⟨rfl, fun j hj => absurd hj (by simp)⟩
  | cons item rest ih =>
    intro i
    by_cases hc : isCredentialError (resps i) = true
    · rw [genLoop, genLoopCons_cred _ _ _ _ hc]
      exact ⟨rfl, fun j _ => frameRel_refl _⟩
    · obtain ⟨pre, heq, -⟩ :=
        genLoopCons_noncred (resps i) item (genLoop resps (i + 1) rest) rest
          (Bool.not_eq_true _ ▸ hc)
      rw [genLoop, heq]
      refine ⟨by simp [(ih (i + 1)).1], ?_⟩
      intro j hj
      cases j with
      | zero =>
        rw [List.getD_cons_zero, List.getD_cons_zero]
        exact applyImgResult_frame item (resps i)
      | succ j' =>
        rw [List.getD_cons_succ, List.getD_cons_succ]
        exact (ih (i + 1)).2 j' (by simpa using Nat.lt_of_succ_lt_succ hj)

/-- C10: `generateAiMedia` returns a list of the same length and order, each
output story differing from its input at most in the media fields —
`mediaType` is `"image"` with a present url exactly when a url was adopted;
all other fields are unchanged. (The input list itself is never mutated: the
code copies the array before writing, and the model is pure.) -/
theorem generateAiMedia_frame (items : List NewsItem) (resps : Nat → ImgOutcome) :
    (generateAiMedia items resps).2.length = items.length ∧
    (∀ j, j < items.length →
      frameRel (items.getD j defaultNewsItem)
        ((generateAiMedia items resps).2.getD j defaultNewsItem)) := by
  by_cases hne : items = []
  · subst hne
    exact ⟨rfl, fun j hj => absurd hj (by simp)⟩
  · rw [generateAiMedia, if_neg hne]
    exact genLoop_frame resps items 0

/-- C10 witness at a one-item list with a successful response. -/
theorem generateAiMedia_frame_witness :
    frameRel (defaultNewsItem)
      ((generateAiMedia [defaultNewsItem] (fun _ => .res "http://img" "")).2.getD 0
        defaultNewsItem) :=
  (generateAiMedia_frame [defaultNewsItem] (fun _ => .res "http://img" "")).2 0
    (by decide)

end NewsBriefing
